import Mathlib

/-!
# Verification of the eCFR analytics core

A shallow embedding, in Lean 4, of the core of the `ecfr-analytics` Go
repository: the chapter extractor (`internal/ecfr/parse.go`), the text
metrics (`WordCount`, `FleschReadingEase`), the snapshot store
(`internal/store`), the metrics engine (`internal/metrics`), and the
HTTP client retry loop (`internal/ecfr/client.go`).

Modelling conventions:
* Go strings are Lean `String`s / `List Char`s; Go byte slices are `List Nat`.
* Go `map` values are insertion-ordered association lists with
  map-semantics helpers (`mapLookup`, `mapInsert`); a Go map read of a
  missing string key yields `""`, mirrored by `mGet`.
* Go `float64` metric values are modelled as exact rationals `ℚ`.
* External libraries are abstracted as function parameters: the SHA-256
  hex digest (`crypto/sha256`) is a parameter `hash : String → String`;
  the gzip codec is a pair `gz : List Nat → List Nat`,
  `gunzip : List Nat → Option (List Nat)` assumed to round-trip.
* The `encoding/xml` tokenizer is abstracted at the token level: a
  snapshot's bytes are modelled as the stream of tokens the lenient
  decoder would yield for them (`XmlTok`), including a possible
  mid-stream decoder error.
* Fallible Go calls return `Option` / `Except`; SQLite query outcomes
  are a three-way `QueryOutcome` (row / no rows / database error).
-/

namespace ECFR

/-! ## Text primitives (internal/ecfr: parse.go) -/

/-- Go `unicode.IsSpace` on the characters relevant here. -/
def isWs (c : Char) : Bool := c.isWhitespace

/-- Head-character whitespace test; `false` on the empty word. -/
def headWs : List Char → Bool
  | [] => false
  | c :: _ => isWs c

/-- The regexp replacement `wsRe.ReplaceAllString(s, " ")` for `wsRe = \s+`:
collapse every maximal whitespace run to a single space.  The boolean flag
records whether the previous input character was whitespace. -/
def collapseGo : Bool → List Char → List Char
  | _, [] => []
  | inWs, c :: cs =>
    if isWs c then
      if inWs then collapseGo true cs
      else ' ' :: collapseGo true cs
    else c :: collapseGo false cs

/-- Drop trailing whitespace. -/
def dropTrailWs : List Char → List Char
  | [] => []
  | c :: cs =>
    let rest := dropTrailWs cs
    if rest = [] && isWs c then [] else c :: rest

/-- `strings.TrimSpace`: drop leading and trailing whitespace. -/
def trimSpace (l : List Char) : List Char :=
  dropTrailWs (l.dropWhile isWs)

/-- `normalizeText` from `parse.go`: trim, and if non-empty collapse
whitespace runs to single spaces. -/
def normalizeText (l : List Char) : List Char :=
  let t := trimSpace l
  if t = [] then [] else collapseGo false t

/-- `WordCount`: number of maximal runs of letters/digits. -/
def wordCountGo : Bool → List Char → Nat
  | _, [] => 0
  | inWord, c :: cs =>
    if c.isAlpha || c.isDigit then
      if inWord then wordCountGo true cs else 1 + wordCountGo true cs
    else wordCountGo false cs

/-- `WordCount` on a string. -/
def WordCount (s : String) : Nat := wordCountGo false s.data

/-- `countSentences`: occurrences of `.`, `!`, `?`, floored at 1. -/
def countSentences (s : String) : Nat :=
  max 1 (s.data.countP (fun c => c = '.' || c = '!' || c = '?'))

/-- `countSyllables`: maximal vowel runs (`aeiouy`, case-insensitive),
floored at 1. -/
def syllGo : Bool → List Char → Nat
  | _, [] => 0
  | inVowel, c :: cs =>
    let isV := "aeiouy".data.contains c.toLower
    if isV then
      if inVowel then syllGo true cs else 1 + syllGo true cs
    else syllGo false cs

/-- `countSyllables` on a string. -/
def countSyllables (s : String) : Nat := max 1 (syllGo false s.data)

/-- `FleschReadingEase`, with `float64` arithmetic modelled exactly in `ℚ`. -/
def FleschReadingEase (text : String) : ℚ :=
  let words : ℚ := max 1 (WordCount text)
  let sentences : ℚ := max 1 (countSentences text)
  let syllables : ℚ := max 1 (countSyllables text)
  206.835 - 1.015 * (words / sentences) - 84.6 * (syllables / words)

/-! ## The chapter extractor (`ParseTitleChapters`) -/

/-- One token from the lenient `encoding/xml` decoder.  `errTok` stands for
a token read that fails with a non-EOF error; `otherTok` covers end
elements, comments, directives and processing instructions, which the
extractor ignores. -/
inductive XmlTok where
  | startElem (name : String) (attrs : List (String × String))
  | charData (s : List Char)
  | otherTok
  | errTok
  deriving DecidableEq, Repr

/-- Go `strings.EqualFold` restricted to the ASCII names that occur in
CFR markup. -/
def eqFold (a b : String) : Bool :=
  a.data.map Char.toLower = b.data.map Char.toLower

/-- `attr`: first attribute whose (case-insensitive) name matches, else `""`. -/
def attrGet (attrs : List (String × String)) (key : String) : String :=
  match attrs with
  | [] => ""
  | (k, v) :: rest => if eqFold k key then v else attrGet rest key

/-- Parser state: per-chapter accumulators (insertion ordered, as the Go
map of `*ChapterAgg` pointers) and the current chapter label. -/
structure PState where
  chapters : List (String × List Char)
  current : String
  deriving Repr

/-- The Go closure `get`: make sure an accumulator exists for `k`. -/
def ensureChapter (m : List (String × List Char)) (k : String) :
    List (String × List Char) :=
  if m.any (fun p => p.1 = k) then m else m ++ [(k, [])]

/-- Append `s` to the accumulator of chapter `k` (the `agg.Text` writes). -/
def appendChapter (m : List (String × List Char)) (k : String) (s : List Char) :
    List (String × List Char) :=
  m.map (fun p => if p.1 = k then (p.1, p.2 ++ s) else p)

/-- Is the element one of `DIV1`/`DIV2`/`DIV3` (case-insensitive)? -/
def isDivTag (name : String) : Bool :=
  eqFold name "DIV1" || eqFold name "DIV2" || eqFold name "DIV3"

/-- One iteration of the token loop of `ParseTitleChapters`. -/
def parseStep (st : PState) : XmlTok → PState
  | .startElem name attrs =>
    if isDivTag name then
      if eqFold (attrGet attrs "TYPE") "CHAPTER" then
        let n := attrGet attrs "N"
        if n ≠ "" then
          { chapters := ensureChapter st.chapters n, current := n }
        else st
      else st
    else st
  | .charData s =>
    let s' := normalizeText s
    if s' = [] then st
    else { st with chapters := appendChapter st.chapters st.current (s' ++ [' ']) }
  | .otherTok => st
  | .errTok => st

/-- The token loop; a decoder error aborts with `none` (`return nil, err`). -/
def parseLoop : PState → List XmlTok → Option PState
  | st, [] => some st
  | _, .errTok :: _ => none
  | st, t :: ts => parseLoop (parseStep st t) ts

/-- Initial state: the `UNKNOWN` bucket exists and is current. -/
def parseInit : PState := { chapters := [("UNKNOWN", [])], current := "UNKNOWN" }

/-- `ParseTitleChapters`: chapter label ↦ accumulated text with whitespace
runs collapsed (`wsRe.ReplaceAllString(a.Text.String(), " ")`). -/
def ParseTitleChapters (toks : List XmlTok) : Option (List (String × String)) :=
  (parseLoop parseInit toks).map fun st =>
    st.chapters.map fun p => (p.1, String.mk (collapseGo false p.2))

/-- Go string-map read: first binding, or `""` when the key is absent. -/
def mGet (m : List (String × String)) (k : String) : String :=
  match m with
  | [] => ""
  | (k', v) :: rest => if k' = k then v else mGet rest k

/-! ## Association-list helpers with Go map semantics -/

/-- Lookup in an assoc list. -/
def mapLookup {κ ν : Type} [DecidableEq κ] : List (κ × ν) → κ → Option ν
  | [], _ => none
  | (k', v) :: rest, k => if k' = k then some v else mapLookup rest k

/-- Go map assignment `m[k] = v`: replace the binding or append a new one. -/
def mapInsert {κ ν : Type} [DecidableEq κ] (m : List (κ × ν)) (k : κ) (v : ν) :
    List (κ × ν) :=
  if m.any (fun p => p.1 = k) then
    m.map (fun p => if p.1 = k then (k, v) else p)
  else m ++ [(k, v)]

/-! ## SnapshotStore (internal/store/store.go) -/

/-- Outcome of a SQLite single-row query (`QueryRowContext(...).Scan`):
a row, `sql.ErrNoRows`, or a database error. -/
inductive QueryOutcome where
  | row (d : String)
  | noRows
  | dbError (e : String)
  deriving DecidableEq, Repr

/-- `Store.PreviousSnapshotDate`: the `(date, ok)` pair returned to the
caller.  Any `Scan` error — including a real database failure — yields
`("", false)`. -/
def PreviousSnapshotDate : QueryOutcome → String × Bool
  | .row d => (d, true)
  | .noRows => ("", false)
  | .dbError _ => ("", false)

/-- `maxXMLSize = 300 << 20`: cap on the uncompressed input accepted by
`SaveSnapshotFromReader`. -/
def maxXMLSize : Nat := 300 * 1048576

/-- `200 << 20`: cap on the decompressed output accepted by
`ReadSnapshotXML` (via `ioReadAllLimit`). -/
def snapshotReadLimit : Nat := 200 * 1048576

/-- Durable store state: gzip blobs at their final snapshot paths (a path
is determined by the `(title, date)` key) and the rows of the `snapshots`
pointer table, which carries `UNIQUE(title_number, issue_date)`. -/
structure StoreState where
  files : List ((Nat × String) × List Nat)
  ptrs : List (Nat × String)
  deriving DecidableEq, Repr

/-- `SaveSnapshotFromReader`, happy-path I/O.  Returns the error (if any)
together with the post state:
1. create a temp file in the target directory (removed by `defer`);
2. stream through `gzip` from `io.LimitReader(r, maxXMLSize+1)`,
   counting `n` uncompressed bytes; fail with "snapshot too large" when
   `n > maxXMLSize` — the temp file is removed, the final path untouched;
3. `os.Rename` the temp file onto the final path (replacing any file
   already there);
4. `INSERT` the pointer row — which fails on the unique key when the
   `(title, date)` snapshot already has a row, after the rename. -/
def SaveSnapshotFromReader (gz : List Nat → List Nat) (st : StoreState)
    (title : Nat) (date : String) (input : List Nat) :
    Option String × StoreState :=
  let n := min input.length (maxXMLSize + 1)
  if n > maxXMLSize then
    (some "snapshot too large", st)
  else
    let files' := mapInsert st.files (title, date) (gz input)
    if st.ptrs.contains (title, date) then
      (some "UNIQUE constraint failed: snapshots.title_number, snapshots.issue_date",
       { files := files', ptrs := st.ptrs })
    else
      (none, { files := files', ptrs := st.ptrs ++ [(title, date)] })

/-- `ReadSnapshotXML`: look up the pointer row, read the blob, decompress,
and fail when the decompressed output exceeds `snapshotReadLimit`. -/
def ReadSnapshotXML (gunzip : List Nat → Option (List Nat)) (st : StoreState)
    (title : Nat) (date : String) : Except String (List Nat) :=
  if st.ptrs.contains (title, date) then
    match mapLookup st.files (title, date) with
    | none => .error "open: no such file or directory"
    | some blob =>
      match gunzip blob with
      | none => .error "gzip: invalid header"
      | some xml =>
        if xml.length > snapshotReadLimit then .error "snapshot too large"
        else .ok xml
  else .error "sql: no rows in result set"

/-- Convenience: did an `Except` succeed? -/
def isOkE {ε α : Type} : Except ε α → Bool
  | .ok _ => true
  | .error _ => false

/-! ## SourceClient retry loop (internal/ecfr/client.go, `do`) -/

/-- What one attempt of `c.hc.Do` produces: a network-level error or a
response with an HTTP status code. -/
inductive AttemptOutcome where
  | netErr (e : String)
  | resp (status : Nat)
  deriving DecidableEq, Repr

/-- The statuses the loop classifies as transient. -/
def retryableStatus (c : Nat) : Bool :=
  c = 429 || c = 500 || c = 502 || c = 503 || c = 504

/-- Is an attempt outcome retried by the loop? -/
def transientOutcome : AttemptOutcome → Bool
  | .netErr _ => true
  | .resp c => retryableStatus c

/-- The `for attempt := 0; attempt < maxAttempts; attempt++` loop of `do`,
with `remaining = maxAttempts - attempt` iterations left, instrumented
with the number of attempts actually issued.  `outcomes i` is what the
transport returns on attempt `i`.  A response with a non-retryable status
is returned at once (`return res, nil`); exhausting the loop returns the
last recorded error (`return nil, lastErr`). -/
def doAux (outcomes : Nat → AttemptOutcome) :
    Nat → Nat → Option String → (Except String Nat × Nat)
  | _, 0, lastErr => (.error (lastErr.getD ""), 0)
  | i, r + 1, _ =>
    match outcomes i with
    | .netErr e =>
      let rec' := doAux outcomes (i + 1) r (some e)
      (rec'.1, rec'.2 + 1)
    | .resp c =>
      if retryableStatus c then
        let rec' := doAux outcomes (i + 1) r (some ("status=" ++ toString c))
        (rec'.1, rec'.2 + 1)
      else (.ok c, 1)

/-- `maxAttempts` in `do`. -/
def maxAttempts : Nat := 5

/-- `do`: the final result (status of the returned response, or the last
error) of one logical request. -/
def doRequest (outcomes : Nat → AttemptOutcome) : Except String Nat :=
  (doAux outcomes 0 maxAttempts none).1

/-- Number of attempts issued by one logical request. -/
def doRequestAttempts (outcomes : Nat → AttemptOutcome) : Nat :=
  (doAux outcomes 0 maxAttempts none).2

/-! ## Data model (internal/ecfr/types.go) -/

/-- A CFR reference `{title, chapter?, subtitle?}` of an agency. -/
structure CFRRef where
  title : Nat
  chapter : String
  subtitle : String
  deriving DecidableEq, Repr

/-- An agency from the admin API (children flattened elsewhere). -/
structure Agency where
  name : String
  slug : String
  cfrReferences : List CFRRef
  deriving DecidableEq, Repr

/-- A CFR title from the versioner API. -/
structure Title where
  number : Nat
  name : String
  upToDateAsOf : String
  reserved : Bool
  deriving DecidableEq, Repr

/-- `agencyRecord` as loaded and flattened by the metrics engine. -/
structure AgencyRec where
  slug : String
  name : String
  raw : Agency
  deriving DecidableEq, Repr

/-! ## MetricsEngine (internal/metrics/compute.go, current revision) -/

/-- The store, as seen by the metrics engine: reading a snapshot yields
the token stream of its XML bytes (or fails), and the previous-date
lookup is the raw SQLite query outcome that `PreviousSnapshotDate`
interprets. -/
structure StoreView where
  readSnapshotXML : Nat → String → Option (List XmlTok)
  prevQuery : Nat → String → QueryOutcome

/-- Go map read `titleDates[n]`: `""` when absent. -/
def dGet (td : List (Nat × String)) (n : Nat) : String :=
  (mapLookup td n).getD ""

/-- `currentTitleDates`: per non-reserved title, its `up_to_date_as_of`. -/
def currentTitleDates (titles : List Title) : List (Nat × String) :=
  titles.foldl
    (fun out t => if t.reserved then out else mapInsert out t.number t.upToDateAsOf)
    []

/-- `refKey`: `fmt.Sprintf("%d:%s", title, chapter)`. -/
def refKey (title : Nat) (chapter : String) : String :=
  toString title ++ ":" ++ chapter

/-- `uniqueStrings`: first-occurrence de-duplication. -/
def uniqueStrings (l : List String) : List String :=
  l.foldl (fun out s => if out.contains s then out else out ++ [s]) []

/-- Append to a `map[string]bool` used as a set (`chapterSet[key] = true`). -/
def insertIfNew (l : List String) (s : String) : List String :=
  if l.contains s then l else l ++ [s]

/-- The `titleChapterText` cache: for every non-reserved title with a
known date whose snapshot reads and parses, its chapter-text map. -/
def buildTitleChapterText (gunzipv : Nat → String → Option (List XmlTok))
    (titles : List Title) (titleDates : List (Nat × String)) :
    List ((Nat × String) × List (String × String)) :=
  titles.foldl
    (fun acc t =>
      if t.reserved then acc
      else
        let date := dGet titleDates t.number
        if date = "" then acc
        else
          match gunzipv t.number date with
          | none => acc
          | some toks =>
            match ParseTitleChapters toks with
            | none => acc
            | some chText => mapInsert acc (t.number, date) chText)
    []

/-- The chapter text a single CFR reference contributes in the current
cycle: the same lookup chain as one iteration of the attribution loop —
empty when the reference is skipped (no chapter code, unknown title
date, missing chapter map), the chapter's extracted text otherwise.  It
depends only on the cycle's chapter-text cache, the title dates and the
reference itself, never on the organization holding the reference. -/
def refContribution (ttext : List ((Nat × String) × List (String × String)))
    (titleDates : List (Nat × String)) (ref : CFRRef) : String :=
  if ref.chapter = "" then ""
  else
    let td := dGet titleDates ref.title
    if td = "" then ""
    else
      match mapLookup ttext (ref.title, td) with
      | none => ""
      | some chMap => mGet chMap ref.chapter

/-- One iteration of the per-agency attribution loop of
`computeWithTitleDates`: skip the reference on any of the four
`continue` conditions, else append the chapter text, its checksum and
the attributed key. -/
def attributeStep (hash : String → String)
    (ttext : List ((Nat × String) × List (String × String)))
    (titleDates : List (Nat × String))
    (acc : String × List String × List String) (ref : CFRRef) :
    String × List String × List String :=
  if ref.chapter = "" then acc
  else
    let td := dGet titleDates ref.title
    if td = "" then acc
    else
      match mapLookup ttext (ref.title, td) with
      | none => acc
      | some chMap =>
        let txt := mGet chMap ref.chapter
        if txt = "" then acc
        else
          (acc.1 ++ txt ++ " ", acc.2.1 ++ [hash txt],
           insertIfNew acc.2.2 (refKey ref.title ref.chapter))

/-- The per-agency attribution loop: concatenated text, per-chapter
checksums, and the set of attributed `(title, chapter)` keys. -/
def attributeRefs (hash : String → String)
    (ttext : List ((Nat × String) × List (String × String)))
    (titleDates : List (Nat × String)) (a : AgencyRec) :
    String × List String × List String :=
  a.raw.cfrReferences.foldl (attributeStep hash ttext titleDates) ("", [], [])

/-- Group the chapter-bearing references by title, preserving first
appearance order (the Go `map[int][]string`). -/
def groupRefs (refs : List (Nat × String)) : List (Nat × List String) :=
  refs.foldl
    (fun g p =>
      if g.any (fun q => q.1 = p.1) then
        g.map (fun q => if q.1 = p.1 then (q.1, q.2 ++ [p.2]) else q)
      else g ++ [(p.1, [p.2])])
    []

/-- The per-title pipeline inside `computeChurnBestEffort`: current date,
previous snapshot date, both snapshot reads, both parses.  Any failure
skips the title (`continue`). -/
def loadChurnPair (st : StoreView) (titleDates : List (Nat × String))
    (title : Nat) : Option (List (String × String) × List (String × String)) :=
  let curDate := dGet titleDates title
  if curDate = "" then none
  else
    let pd := PreviousSnapshotDate (st.prevQuery title curDate)
    if pd.2 = false then none
    else
      match st.readSnapshotXML title curDate with
      | none => none
      | some curToks =>
        match st.readSnapshotXML title pd.1 with
        | none => none
        | some prevToks =>
          match ParseTitleChapters curToks with
          | none => none
          | some curCh =>
            match ParseTitleChapters prevToks with
            | none => none
            | some prevCh => some (curCh, prevCh)

/-- One iteration of the inner chapter loop of `computeChurnBestEffort`:
skip the chapter unless both texts are non-empty, else bump `total` and,
when the checksums differ, `changed`. -/
def chapterStep (hash : String → String) (curCh prevCh : List (String × String))
    (acc2 : Nat × Nat) (ch : String) : Nat × Nat :=
  let ct := mGet curCh ch
  let pt := mGet prevCh ch
  if ct = "" ∨ pt = "" then acc2
  else (acc2.1 + (if hash ct ≠ hash pt then 1 else 0), acc2.2 + 1)

/-- Inner chapter loop of `computeChurnBestEffort`: fold the
`(changed, total)` counters over the de-duplicated chapters. -/
def chapterCounts (hash : String → String)
    (curCh prevCh : List (String × String)) (chapters : List String)
    (acc : Nat × Nat) : Nat × Nat :=
  (uniqueStrings chapters).foldl (chapterStep hash curCh prevCh) acc

/-- One iteration of the outer title loop of `computeChurnBestEffort`:
a title whose pipeline fails anywhere is skipped (`continue`). -/
def churnTitleStep (hash : String → String) (st : StoreView)
    (titleDates : List (Nat × String)) (acc : Nat × Nat)
    (g : Nat × List String) : Nat × Nat :=
  match loadChurnPair st titleDates g.1 with
  | none => acc
  | some (curCh, prevCh) => chapterCounts hash curCh prevCh g.2 acc

/-- Outer title loop of `computeChurnBestEffort`: the `(changed, total)`
counters after all groups. -/
def churnCounts (hash : String → String) (st : StoreView)
    (titleDates : List (Nat × String)) (groups : List (Nat × List String)) :
    Nat × Nat :=
  groups.foldl (churnTitleStep hash st titleDates) (0, 0)

/-- The chapter-bearing references of an agency, as `(title, chapter)`. -/
def churnRefs (a : AgencyRec) : List (Nat × String) :=
  a.raw.cfrReferences.foldl
    (fun refs r => if r.chapter ≠ "" then refs ++ [(r.title, r.chapter)] else refs)
    []

/-- `computeChurnBestEffort`: `changed/total` over comparable chapters,
`0` when there is nothing to compare. -/
def computeChurnBestEffort (hash : String → String) (st : StoreView)
    (a : AgencyRec) (titleDates : List (Nat × String)) : ℚ :=
  let refs := churnRefs a
  if refs = [] then 0
  else
    let counts := churnCounts hash st titleDates (groupRefs refs)
    if counts.2 = 0 then 0 else (counts.1 : ℚ) / (counts.2 : ℚ)

/-- Go's byte-wise string comparison `s < t` (lexicographic on code
points; dates here are ASCII, where this coincides with byte order). -/
def charListLt : List Char → List Char → Bool
  | [], [] => false
  | [], _ :: _ => true
  | _ :: _, [] => false
  | a :: as, b :: bs =>
    if a.toNat < b.toNat then true
    else if b.toNat < a.toNat then false
    else charListLt as bs

/-- Go `s < t` on strings. -/
def strLt (a b : String) : Bool := charListLt a.data b.data

/-- `newestReferencedDateFromMap`: lexicographic maximum of
`titleDates[r.Title]` over ALL of the agency's references (chapter-less
ones included), skipping unknown titles. -/
def newestReferencedDateFromMap (a : AgencyRec)
    (titleDates : List (Nat × String)) : String :=
  a.raw.cfrReferences.foldl
    (fun best r =>
      let d := dGet titleDates r.title
      if d = "" then best else if strLt best d then d else best)
    ""

/-- A row written through `Store.PutAgencyMetric`. -/
structure MetricRow where
  slug : String
  date : String
  metric : String
  num : Option ℚ
  text : Option String
  deriving DecidableEq, Repr

/-- The per-agency body of the loop in `computeWithTitleDates`: the metric
rows written for one agency (none when its concatenated text is empty). -/
def agencyRows (hash : String → String) (st : StoreView)
    (ttext : List ((Nat × String) × List (String × String)))
    (titleDates : List (Nat × String)) (a : AgencyRec) : List MetricRow :=
  let tr := attributeRefs hash ttext titleDates a
  if tr.1 = "" then []
  else
    let wc : ℚ := (WordCount tr.1 : ℚ)
    let denom : Nat := if tr.2.2.length = 0 then 1 else tr.2.2.length
    let wordsPerChapter : ℚ := wc / (denom : ℚ)
    let sum := hash tr.1
    let fre := FleschReadingEase tr.1
    let churn := computeChurnBestEffort hash st a titleDates
    let date := newestReferencedDateFromMap a titleDates
    [ { slug := a.slug, date := date, metric := "word_count", num := some wc, text := none },
      { slug := a.slug, date := date, metric := "words_per_chapter", num := some wordsPerChapter, text := none },
      { slug := a.slug, date := date, metric := "checksum", num := none, text := some sum },
      { slug := a.slug, date := date, metric := "readability", num := some fre, text := none },
      { slug := a.slug, date := date, metric := "churn", num := some churn, text := none } ]

/-- The agency loop of `computeWithTitleDates`. -/
def metricRowsFor (hash : String → String) (st : StoreView)
    (ttext : List ((Nat × String) × List (String × String)))
    (titleDates : List (Nat × String)) : List AgencyRec → List MetricRow
  | [] => []
  | a :: rest =>
    agencyRows hash st ttext titleDates a ++ metricRowsFor hash st ttext titleDates rest

/-- `computeWithTitleDates`: build the chapter-text cache, then write the
metric rows agency by agency. -/
def computeWithTitleDates (hash : String → String) (st : StoreView)
    (titles : List Title) (titleDates : List (Nat × String))
    (agencies : List AgencyRec) : List MetricRow :=
  metricRowsFor hash st (buildTitleChapterText st.readSnapshotXML titles titleDates)
    titleDates agencies

/-- `ComputeLatest`: compute at each non-reserved title's current date. -/
def ComputeLatest (hash : String → String) (st : StoreView)
    (titles : List Title) (agencies : List AgencyRec) : List MetricRow :=
  computeWithTitleDates hash st titles (currentTitleDates titles) agencies

/-! ## Lemmas about the retry loop -/

lemma doAux_attempts_le (o : Nat → AttemptOutcome) :
    ∀ r i le, (doAux o i r le).2 ≤ r := by
  intro r
  induction r with
  | zero => intro i le; simp [doAux]
  | succ n ih =>
    intro i le
    simp only [doAux]
    cases o i with
    | netErr e => simpa using Nat.succ_le_succ (ih (i + 1) (some e))
    | resp c =>
      by_cases hc : retryableStatus c
      · simpa [hc] using Nat.succ_le_succ (ih (i + 1) _)
      · simp [hc]

lemma doAux_terminal (o : Nat → AttemptOutcome) :
    ∀ d i r le c, d < r →
      (∀ j, i ≤ j → j < i + d → transientOutcome (o j) = true) →
      o (i + d) = .resp c → retryableStatus c = false →
      doAux o i r le = (.ok c, d + 1) := by
  intro d
  induction d with
  | zero =>
    intro i r le c hr _ hresp hc
    obtain ⟨r', rfl⟩ : ∃ r', r = r' + 1 := ⟨r - 1, by omega⟩
    simp only [Nat.add_zero] at hresp
    simp [doAux, hresp, hc]
  | succ n ih =>
    intro i r le c hr htrans hresp hc
    obtain ⟨r', rfl⟩ : ∃ r', r = r' + 1 := ⟨r - 1, by omega⟩
    have hti : transientOutcome (o i) = true := htrans i le_rfl (by omega)
    have hstep : (i + 1) + n = i + (n + 1) := by omega
    have htrans' : ∀ j, i + 1 ≤ j → j < (i + 1) + n → transientOutcome (o j) = true := by
      intro j h1 h2; exact htrans j (by omega) (by omega)
    have hresp' : o ((i + 1) + n) = .resp c := by rw [hstep]; exact hresp
    cases ho : o i with
    | netErr e =>
      have := ih (i + 1) r' (some e) c (by omega) htrans' hresp' hc
      simp [doAux, ho, this]
    | resp cc =>
      have hcc : retryableStatus cc = true := by
        simpa [transientOutcome, ho] using hti
      have := ih (i + 1) r' (some ("status=" ++ toString cc)) c (by omega) htrans' hresp' hc
      simp [doAux, ho, hcc, this]

lemma doAux_attempts_ge (o : Nat → AttemptOutcome) :
    ∀ d i r le, d ≤ r →
      (∀ j, i ≤ j → j < i + d → transientOutcome (o j) = true) →
      min (d + 1) r ≤ (doAux o i r le).2 := by
  intro d
  induction d with
  | zero =>
    intro i r le _ _
    match r with
    | 0 => simp
    | r' + 1 =>
      simp only [doAux]
      cases o i with
      | netErr e => simp
      | resp c =>
        by_cases hc : retryableStatus c
        · simp [hc]
        · simp [hc]
  | succ n ih =>
    intro i r le hr htrans
    obtain ⟨r', rfl⟩ : ∃ r', r = r' + 1 := ⟨r - 1, by omega⟩
    have hti : transientOutcome (o i) = true := htrans i le_rfl (by omega)
    have htrans' : ∀ j, i + 1 ≤ j → j < (i + 1) + n → transientOutcome (o j) = true := by
      intro j h1 h2; exact htrans j (by omega) (by omega)
    cases ho : o i with
    | netErr e =>
      have := ih (i + 1) r' (some e) (by omega) htrans'
      simp only [doAux, ho]
      simp only [min] at this ⊢
      omega
    | resp cc =>
      have hcc : retryableStatus cc = true := by
        simpa [transientOutcome, ho] using hti
      have := ih (i + 1) r' (some ("status=" ++ toString cc)) (by omega) htrans'
      simp only [doAux, ho, hcc, if_pos]
      simp only [min] at this ⊢
      omega

/-- C3: every `SourceClient` call makes at most 5 attempts; an attempt is
retried exactly when it fails with a network-level error or with HTTP
status 429, 500, 502, 503 or 504 (so if the first `i` outcomes are
transient, at least `min (i+1) 5` attempts are issued); a response with
any other HTTP status ends the call immediately, as the successful result,
without further attempts; and a sequence of three 503 responses followed
by a 200 succeeds within the attempt bound. -/
theorem client_retry_policy (o : Nat → AttemptOutcome) :
    doRequestAttempts o ≤ 5 ∧
    (∀ i c, i < 5 → (∀ j, j < i → transientOutcome (o j) = true) →
      o i = .resp c → retryableStatus c = false →
      doRequest o = .ok c ∧ doRequestAttempts o = i + 1) ∧
    (∀ k, k ≤ 5 → (∀ j, j < k → transientOutcome (o j) = true) →
      min (k + 1) 5 ≤ doRequestAttempts o) ∧
    (doRequest (fun i => if i < 3 then .resp 503 else .resp 200) = .ok 200 ∧
      doRequestAttempts (fun i => if i < 3 then .resp 503 else .resp 200) = 4) := by
  refine ⟨doAux_attempts_le o 5 0 none, ?_, ?_, rfl, rfl⟩
  · intro i c hi htrans hresp hc
    have := doAux_terminal o i 0 5 none c hi
      (fun j _ hj => htrans j (by omega)) (by simpa using hresp) hc
    constructor
    · simp [doRequest, maxAttempts, this]
    · simp [doRequestAttempts, maxAttempts, this]
  · intro k hk htrans
    exact doAux_attempts_ge o k 0 5 none hk (fun j _ hj => htrans j (by omega))

/-- Witness for C3: a 404 on the first attempt is returned immediately
(one attempt, no retry). -/
theorem client_retry_policy_witness :
    doRequest (fun _ => .resp 404) = .ok 404 ∧
    doRequestAttempts (fun _ => .resp 404) = 1 :=
  (client_retry_policy (fun _ => .resp 404)).2.1 0 404 (by decide)
    (fun j hj => absurd hj (Nat.not_lt_zero j)) rfl rfl

/-! ## Lemmas about the store model -/

lemma mapLookup_map_set {κ ν : Type} [DecidableEq κ] (k : κ) (v : ν) :
    ∀ m : List (κ × ν), m.any (fun p => p.1 = k) = true →
      mapLookup (m.map fun p => if p.1 = k then (k, v) else p) k = some v := by
  intro m
  induction m with
  | nil => intro h; simp at h
  | cons p rest ih =>
    intro h
    simp only [List.map_cons]
    by_cases hp : p.1 = k
    · rw [if_pos hp]
      simp [mapLookup]
    · rw [if_neg hp]
      have hrest : rest.any (fun p => p.1 = k) = true := by
        simpa [List.any_cons, hp] using h
      simp only [mapLookup, if_neg hp]
      exact ih hrest

lemma mapLookup_append_last {κ ν : Type} [DecidableEq κ] (k : κ) (v : ν) :
    ∀ m : List (κ × ν), m.any (fun p => p.1 = k) = false →
      mapLookup (m ++ [(k, v)]) k = some v := by
  intro m
  induction m with
  | nil => intro _; simp [mapLookup]
  | cons p rest ih =>
    intro h
    have hp : ¬ p.1 = k := by
      intro hk
      rw [List.any_cons] at h
      simp [hk] at h
    have hrest : rest.any (fun p => p.1 = k) = false := by
      rw [List.any_cons] at h
      simpa [hp] using h
    simp only [List.cons_append, mapLookup, if_neg hp]
    exact ih hrest

lemma mapLookup_mapInsert {κ ν : Type} [DecidableEq κ]
    (m : List (κ × ν)) (k : κ) (v : ν) :
    mapLookup (mapInsert m k v) k = some v := by
  unfold mapInsert
  by_cases h : m.any (fun p => p.1 = k)
  · rw [if_pos h]
    exact mapLookup_map_set k v m h
  · rw [if_neg h]
    exact mapLookup_append_last k v m (by rwa [Bool.not_eq_true] at h)

lemma contains_append_self (l : List (Nat × String)) (x : Nat × String) :
    (l ++ [x]).contains x = true := by
  induction l with
  | nil => simp
  | cons p rest ih =>
    rw [List.cons_append, List.contains_cons]
    simp [ih]

/-- C4 counterexample: with the identity codec, an input one byte over the
200 MiB read cap but under the 300 MiB save cap saves successfully, yet
reading it back fails with "snapshot too large" instead of returning the
saved bytes: `Save` + `Read` do not round-trip up to the save cap. -/
theorem snapshot_roundtrip_cex :
    (List.replicate (snapshotReadLimit + 1) 0).length ≤ maxXMLSize ∧
    (SaveSnapshotFromReader id ⟨[], []⟩ 1 "2025-01-02"
        (List.replicate (snapshotReadLimit + 1) 0)).1 = none ∧
    ReadSnapshotXML some
        (SaveSnapshotFromReader id ⟨[], []⟩ 1 "2025-01-02"
          (List.replicate (snapshotReadLimit + 1) 0)).2 1 "2025-01-02"
      = .error "snapshot too large" ∧
    isOkE (ReadSnapshotXML some
        (SaveSnapshotFromReader id ⟨[], []⟩ 1 "2025-01-02"
          (List.replicate (snapshotReadLimit + 1) 0)).2 1 "2025-01-02") = false := by
  have hlen : (List.replicate (snapshotReadLimit + 1) (0 : Nat)).length
      = snapshotReadLimit + 1 := List.length_replicate _ _
  have hle : snapshotReadLimit + 1 ≤ maxXMLSize := by
    simp [snapshotReadLimit, maxXMLSize]
  have hsave : SaveSnapshotFromReader id ⟨[], []⟩ 1 "2025-01-02"
      (List.replicate (snapshotReadLimit + 1) 0)
      = (none, { files := [((1, "2025-01-02"), List.replicate (snapshotReadLimit + 1) 0)],
                 ptrs := [(1, "2025-01-02")] }) := by
    unfold SaveSnapshotFromReader
    rw [hlen]
    have hmin : min (snapshotReadLimit + 1) (maxXMLSize + 1) = snapshotReadLimit + 1 := by
      simp [snapshotReadLimit, maxXMLSize]
    rw [hmin, if_neg (by omega)]
    simp [mapInsert, List.contains]
  have hread : ∀ b : List Nat, snapshotReadLimit < b.length →
      ReadSnapshotXML some ⟨[((1, "2025-01-02"), b)], [(1, "2025-01-02")]⟩ 1 "2025-01-02"
        = .error "snapshot too large" := by
    intro b hb
    have hc : (([(1, "2025-01-02")] : List (Nat × String)).contains (1, "2025-01-02")) = true := by
      decide
    have hl : mapLookup [((1, "2025-01-02"), b)] (1, "2025-01-02") = some b := by
      simp [mapLookup]
    unfold ReadSnapshotXML
    simp only [hc, if_true, hl]
    rw [if_pos hb]
  refine ⟨by rw [hlen]; exact hle, by rw [hsave], ?_, ?_⟩
  · rw [hsave]
    exact hread _ (by rw [hlen]; omega)
  · rw [hsave]
    rw [hread _ (by rw [hlen]; omega)]
    rfl

/-- C4 amended: for a fresh `(division, date)` key and a round-tripping
codec, `Save` then `Read` returns byte-identical content for input up to
the READ output cap (200 MiB, not the 300 MiB save cap); input strictly
over the save cap is rejected with "snapshot too large" and leaves the
store state — in particular the final snapshot path and the pointer
table — exactly as it was. -/
theorem snapshot_save_read_amended (gz : List Nat → List Nat)
    (gunzip : List Nat → Option (List Nat))
    (hrt : ∀ x, gunzip (gz x) = some x)
    (st : StoreState) (t : Nat) (d : String) (input : List Nat)
    (hfresh : st.ptrs.contains (t, d) = false) :
    (input.length ≤ snapshotReadLimit →
      (SaveSnapshotFromReader gz st t d input).1 = none ∧
      ReadSnapshotXML gunzip (SaveSnapshotFromReader gz st t d input).2 t d
        = .ok input) ∧
    (maxXMLSize < input.length →
      (SaveSnapshotFromReader gz st t d input).1 = some "snapshot too large" ∧
      (SaveSnapshotFromReader gz st t d input).2 = st) := by
  constructor
  · intro hsmall
    have hminle : min input.length (maxXMLSize + 1) ≤ maxXMLSize := by
      have h1 : min input.length (maxXMLSize + 1) ≤ input.length := Nat.min_le_left _ _
      have h2 : snapshotReadLimit ≤ maxXMLSize := by simp [snapshotReadLimit, maxXMLSize]
      omega
    have hsave : SaveSnapshotFromReader gz st t d input
        = (none, { files := mapInsert st.files (t, d) (gz input),
                   ptrs := st.ptrs ++ [(t, d)] }) := by
      unfold SaveSnapshotFromReader
      rw [if_neg (by omega)]
      simp only [hfresh, Bool.false_eq_true, if_false]
    refine ⟨by rw [hsave], ?_⟩
    rw [hsave]
    unfold ReadSnapshotXML
    simp only [contains_append_self st.ptrs (t, d), if_true, mapLookup_mapInsert, hrt input]
    rw [if_neg (by omega)]
  · intro hbig
    have hmin : min input.length (maxXMLSize + 1) = maxXMLSize + 1 := by omega
    unfold SaveSnapshotFromReader
    rw [hmin, if_pos (by omega)]
    exact ⟨rfl, rfl⟩

/-- Witness for C4 (amended): a two-byte snapshot saved with the identity
codec reads back byte-identically. -/
theorem snapshot_save_read_amended_witness :
    ReadSnapshotXML some
        (SaveSnapshotFromReader id ⟨[], []⟩ 1 "2025-01-02" [7, 8]).2 1 "2025-01-02"
      = .ok [7, 8] :=
  ((snapshot_save_read_amended id some (fun _ => rfl) ⟨[], []⟩ 1 "2025-01-02" [7, 8]
      (by decide)).1 (by decide)).2

/-- C10: a second `Save` for a key that already has a pointer row fails on
`UNIQUE(title_number, issue_date)`, but only after the blob at the final
snapshot path has been replaced by the newly compressed content; the
pointer table is unchanged. -/
theorem save_duplicate_key_replaces_blob (gz : List Nat → List Nat)
    (st : StoreState) (t : Nat) (d : String) (input : List Nat)
    (hdup : st.ptrs.contains (t, d) = true)
    (hsize : input.length ≤ maxXMLSize) :
    (SaveSnapshotFromReader gz st t d input).1 =
      some "UNIQUE constraint failed: snapshots.title_number, snapshots.issue_date" ∧
    mapLookup (SaveSnapshotFromReader gz st t d input).2.files (t, d)
      = some (gz input) ∧
    (SaveSnapshotFromReader gz st t d input).2.ptrs = st.ptrs := by
  have hminle : min input.length (maxXMLSize + 1) ≤ maxXMLSize := by
    have := Nat.min_le_left input.length (maxXMLSize + 1)
    omega
  unfold SaveSnapshotFromReader
  rw [if_neg (by omega), hdup]
  exact ⟨rfl, mapLookup_mapInsert st.files (t, d) (gz input), rfl⟩

/-- Witness for C10: re-saving key `(1, "2025-01-01")` over an existing
snapshot errors out yet leaves the new blob `[5, 6]` at the final path. -/
theorem save_duplicate_key_replaces_blob_witness :
    (SaveSnapshotFromReader id ⟨[((1, "2025-01-01"), [9])], [(1, "2025-01-01")]⟩
        1 "2025-01-01" [5, 6]).1 =
      some "UNIQUE constraint failed: snapshots.title_number, snapshots.issue_date" ∧
    mapLookup (SaveSnapshotFromReader id ⟨[((1, "2025-01-01"), [9])], [(1, "2025-01-01")]⟩
        1 "2025-01-01" [5, 6]).2.files (1, "2025-01-01") = some [5, 6] :=
  ⟨(save_duplicate_key_replaces_blob id ⟨[((1, "2025-01-01"), [9])], [(1, "2025-01-01")]⟩
      1 "2025-01-01" [5, 6] (by decide) (by decide)).1,
   (save_duplicate_key_replaces_blob id ⟨[((1, "2025-01-01"), [9])], [(1, "2025-01-01")]⟩
      1 "2025-01-01" [5, 6] (by decide) (by decide)).2.1⟩

/-! ## C9: storage failures in the previous-date lookup -/

lemma foldl_const {α β : Type} (f : α → β → α) (h : ∀ a b, f a b = a) :
    ∀ (l : List β) (init : α), l.foldl f init = init := by
  intro l
  induction l with
  | nil => intro init; rfl
  | cons b rest ih => intro init; rw [List.foldl_cons, h init b]; exact ih init

lemma loadChurnPair_prevfail (st : StoreView) (td : List (Nat × String)) (t : Nat)
    (hfail : ∀ t d, ∃ msg, st.prevQuery t d = QueryOutcome.dbError msg) :
    loadChurnPair st td t = none := by
  unfold loadChurnPair
  by_cases hd : dGet td t = ""
  · rw [if_pos hd]
  · rw [if_neg hd]
    obtain ⟨msg, hmsg⟩ := hfail t (dGet td t)
    rw [hmsg]
    simp [PreviousSnapshotDate]

/-- C9: `PreviousSnapshotDate` maps every database error to the same
`("", false)` result as a genuine absence of a prior snapshot — the two
are indistinguishable to the caller — and consequently, when every
previous-date query fails with a storage error, `computeChurnBestEffort`
silently returns `0` (its return type carries no error channel) instead
of surfacing the failure. -/
theorem prev_date_failure_degrades (hash : String → String) (st : StoreView)
    (a : AgencyRec) (td : List (Nat × String))
    (hfail : ∀ t d, ∃ msg, st.prevQuery t d = QueryOutcome.dbError msg) :
    (∀ msg, PreviousSnapshotDate (.dbError msg) = ("", false) ∧
      PreviousSnapshotDate (.dbError msg) = PreviousSnapshotDate .noRows) ∧
    computeChurnBestEffort hash st a td = 0 := by
  refine ⟨fun msg => ⟨rfl, rfl⟩, ?_⟩
  unfold computeChurnBestEffort
  by_cases hr : churnRefs a = []
  · rw [if_pos hr]
  · rw [if_neg hr]
    have hcc : churnCounts hash st td (groupRefs (churnRefs a)) = (0, 0) := by
      unfold churnCounts
      apply foldl_const
      intro acc g
      unfold churnTitleStep
      rw [loadChurnPair_prevfail st td g.1 hfail]
    rw [hcc]
    rfl

/-- Witness for C9: a store whose previous-date query always fails with a
disk error yields churn `0` for a concrete agency. -/
theorem prev_date_failure_degrades_witness :
    computeChurnBestEffort id
      ⟨fun _ _ => none, fun _ _ => .dbError "disk I/O error"⟩
      ⟨"a", "A", ⟨"A", "a", [⟨1, "I", ""⟩]⟩⟩ [(1, "2025-01-02")] = 0 :=
  (prev_date_failure_degrades id
      ⟨fun _ _ => none, fun _ _ => .dbError "disk I/O error"⟩
      ⟨"a", "A", ⟨"A", "a", [⟨1, "I", ""⟩]⟩⟩ [(1, "2025-01-02")]
      (fun _ _ => ⟨"disk I/O error", rfl⟩)).2

/-! ## C6/C8: normalization of extracted chapter text -/

/-- No two adjacent whitespace characters (the flag records whether the
previous character was whitespace). -/
def noDoubleWs : Bool → List Char → Bool
  | _, [] => true
  | prevWs, c :: cs => !(prevWs && isWs c) && noDoubleWs (isWs c) cs

/-- Every whitespace character is a plain space. -/
def allWsSpaceB (l : List Char) : Bool := l.all (fun c => !(isWs c) || c = ' ')

/-- No trailing whitespace. -/
def noTrailWsB (l : List Char) : Bool := !headWs l.reverse

/-- Last-character whitespace test; `false` on the empty word. -/
def endsWsB : List Char → Bool
  | [] => false
  | [c] => isWs c
  | _ :: c :: rest => endsWsB (c :: rest)

/-- Does the text end in a plain space character? -/
def endsSp : List Char → Bool
  | [] => false
  | [c] => c = ' '
  | _ :: c :: rest => endsSp (c :: rest)

lemma noDoubleWs_collapseGo : ∀ (l : List Char) (b : Bool),
    noDoubleWs b (collapseGo b l) = true := by
  intro l
  induction l with
  | nil => intro b; rfl
  | cons c cs ih =>
    intro b
    by_cases hc : isWs c = true
    · cases b with
      | true =>
        have h1 : collapseGo true (c :: cs) = collapseGo true cs := by
          simp [collapseGo, hc]
        rw [h1]; exact ih true
      | false =>
        have h1 : collapseGo false (c :: cs) = ' ' :: collapseGo true cs := by
          simp [collapseGo, hc]
        rw [h1]
        have h2 : isWs ' ' = true := by decide
        simp [noDoubleWs, h2, ih true]
    · have hc' : isWs c = false := by rwa [Bool.not_eq_true] at hc
      have h1 : collapseGo b (c :: cs) = c :: collapseGo false cs := by
        cases b <;> simp [collapseGo, hc']
      rw [h1]
      simp [noDoubleWs, hc', ih false]

lemma allWsSpaceB_collapseGo : ∀ (l : List Char) (b : Bool),
    allWsSpaceB (collapseGo b l) = true := by
  intro l
  induction l with
  | nil => intro b; rfl
  | cons c cs ih =>
    intro b
    by_cases hc : isWs c = true
    · cases b with
      | true =>
        have h1 : collapseGo true (c :: cs) = collapseGo true cs := by
          simp [collapseGo, hc]
        rw [h1]; exact ih true
      | false =>
        have h1 : collapseGo false (c :: cs) = ' ' :: collapseGo true cs := by
          simp [collapseGo, hc]
        rw [h1]
        have h' := ih true
        simp [allWsSpaceB] at h' ⊢
        exact h'
    · have hc' : isWs c = false := by rwa [Bool.not_eq_true] at hc
      have h1 : collapseGo b (c :: cs) = c :: collapseGo false cs := by
        cases b <;> simp [collapseGo, hc']
      rw [h1]
      have h' := ih false
      simp [allWsSpaceB] at h' ⊢
      exact ⟨Or.inl (by simpa using hc'), h'⟩

lemma collapseGo_false_headWs (l : List Char) (h : headWs l = false) :
    headWs (collapseGo false l) = false := by
  cases l with
  | nil => rfl
  | cons c cs =>
    have hc : isWs c = false := h
    simp [collapseGo, hc, headWs]

lemma collapseGo_false_ne_nil (l : List Char) (h : l ≠ []) :
    collapseGo false l ≠ [] := by
  cases l with
  | nil => exact absurd rfl h
  | cons c cs =>
    by_cases hc : isWs c = true
    · simp [collapseGo, hc]
    · have hc' : isWs c = false := by rwa [Bool.not_eq_true] at hc
      simp [collapseGo, hc']

lemma endsWsB_append_space : ∀ y : List Char, endsWsB (y ++ [' ']) = true := by
  intro y
  induction y with
  | nil => decide
  | cons c ys ih =>
    cases ys with
    | nil => exact (show endsWsB [' '] = true by decide)
    | cons d ds =>
      show endsWsB ((d :: ds) ++ [' ']) = true
      exact ih

lemma collapse_endsSp : ∀ (l : List Char) (b : Bool), endsWsB l = true →
    collapseGo b l = [] ∨ endsSp (collapseGo b l) = true := by
  intro l
  induction l with
  | nil => intro b h; cases h
  | cons c cs ih =>
    intro b h
    cases cs with
    | nil =>
      have hc : isWs c = true := h
      cases b with
      | true =>
        left
        simp [collapseGo, hc]
      | false =>
        right
        have heq : collapseGo false [c] = [' '] := by simp [collapseGo, hc]
        rw [heq]
        decide
    | cons d ds =>
      have h' : endsWsB (d :: ds) = true := h
      by_cases hc : isWs c = true
      · cases b with
        | true =>
          have heq : collapseGo true (c :: d :: ds) = collapseGo true (d :: ds) := by
            simp [collapseGo, hc]
          rw [heq]
          exact ih true h'
        | false =>
          have heq : collapseGo false (c :: d :: ds)
              = ' ' :: collapseGo true (d :: ds) := by
            simp [collapseGo, hc]
          rw [heq]
          right
          rcases ih true h' with ht | ht
          · rw [ht]
            decide
          · cases htl : collapseGo true (d :: ds) with
            | nil => rw [htl] at ht; cases ht
            | cons e es =>
              rw [htl] at ht
              show endsSp (' ' :: e :: es) = true
              exact ht
      · have hc' : isWs c = false := by rwa [Bool.not_eq_true] at hc
        have heq : collapseGo b (c :: d :: ds) = c :: collapseGo false (d :: ds) := by
          cases b <;> simp [collapseGo, hc']
        rw [heq]
        right
        have hne : collapseGo false (d :: ds) ≠ [] :=
          collapseGo_false_ne_nil (d :: ds) (by simp)
        rcases ih false h' with ht | ht
        · exact absurd ht hne
        · cases htl : collapseGo false (d :: ds) with
          | nil => exact absurd htl hne
          | cons e es =>
            rw [htl] at ht
            show endsSp (c :: e :: es) = true
            exact ht

lemma headWs_dropWhile (l : List Char) : headWs (l.dropWhile isWs) = false := by
  induction l with
  | nil => rfl
  | cons c cs ih =>
    by_cases hc : isWs c = true
    · simpa [List.dropWhile_cons, hc] using ih
    · have hc' : isWs c = false := by rwa [Bool.not_eq_true] at hc
      simp [List.dropWhile_cons, hc', headWs]

lemma headWs_dropTrailWs (l : List Char) (h : headWs l = false) :
    headWs (dropTrailWs l) = false := by
  cases l with
  | nil => rfl
  | cons c cs =>
    have hc : isWs c = false := h
    simp only [dropTrailWs, hc, Bool.and_false, Bool.false_eq_true, if_false]
    simp [headWs, hc]

lemma headWs_normalizeText (l : List Char) :
    headWs (normalizeText l) = false := by
  unfold normalizeText trimSpace
  by_cases ht : dropTrailWs (l.dropWhile isWs) = []
  · rw [if_pos ht]; rfl
  · rw [if_neg ht]
    exact collapseGo_false_headWs _ (headWs_dropTrailWs _ (headWs_dropWhile l))

/-- The invariant on a chapter accumulator: empty, or starting with a
non-whitespace character and ending with a whitespace character (every
appended chunk ends in the separating space). -/
def accOk (l : List Char) : Prop :=
  l = [] ∨ (headWs l = false ∧ endsWsB l = true)

/-- The invariant on the parser's chapter map. -/
def chaptersOk (m : List (String × List Char)) : Prop := ∀ p ∈ m, accOk p.2

lemma chaptersOk_ensure (m : List (String × List Char)) (k : String)
    (h : chaptersOk m) : chaptersOk (ensureChapter m k) := by
  unfold ensureChapter
  by_cases hk : m.any (fun p => p.1 = k) = true
  · rwa [if_pos hk]
  · rw [if_neg hk]
    intro p hp
    rcases List.mem_append.mp hp with hp | hp
    · exact h p hp
    · rcases List.mem_singleton.mp hp with rfl
      exact Or.inl rfl

lemma headWs_append_chunk (x : List Char) (hne : x ≠ [])
    (hx : headWs x = false) : ∀ y, headWs (x ++ y) = false := by
  intro y
  cases x with
  | nil => exact absurd rfl hne
  | cons c cs => simpa [headWs] using hx

lemma accOk_append_chunk (x s' : List Char) (hx : accOk x)
    (hne : s' ≠ []) (hs : headWs s' = false) : accOk (x ++ (s' ++ [' '])) := by
  refine Or.inr ⟨?_, ?_⟩
  · rcases hx with rfl | ⟨hx1, _⟩
    · rw [List.nil_append]
      exact headWs_append_chunk s' hne hs [' ']
    · cases x with
      | nil =>
        rw [List.nil_append]
        exact headWs_append_chunk s' hne hs [' ']
      | cons c cs => simpa [List.cons_append, headWs] using hx1
  · rw [← List.append_assoc]
    exact endsWsB_append_space (x ++ s')

lemma chaptersOk_append (m : List (String × List Char)) (k : String)
    (s' : List Char) (h : chaptersOk m) (hne : s' ≠ [])
    (hs : headWs s' = false) :
    chaptersOk (appendChapter m k (s' ++ [' '])) := by
  intro p hp
  unfold appendChapter at hp
  rcases List.mem_map.mp hp with ⟨q, hq, rfl⟩
  by_cases hqk : q.1 = k
  · rw [if_pos hqk]
    exact accOk_append_chunk q.2 s' (h q hq) hne hs
  · rw [if_neg hqk]
    exact h q hq

lemma chaptersOk_parseStep (st : PState) (t : XmlTok)
    (h : chaptersOk st.chapters) : chaptersOk (parseStep st t).chapters := by
  cases t with
  | startElem name attrs =>
    simp only [parseStep]
    by_cases h1 : isDivTag name = true
    · rw [if_pos h1]
      by_cases h2 : eqFold (attrGet attrs "TYPE") "CHAPTER" = true
      · rw [if_pos h2]
        by_cases h3 : attrGet attrs "N" ≠ ""
        · rw [if_pos h3]
          exact chaptersOk_ensure st.chapters _ h
        · rw [if_neg h3]; exact h
      · rw [if_neg h2]; exact h
    · rw [if_neg h1]; exact h
  | charData s =>
    simp only [parseStep]
    by_cases hs : normalizeText s = []
    · rw [if_pos hs]; exact h
    · rw [if_neg hs]
      exact chaptersOk_append st.chapters st.current (normalizeText s) h hs
        (headWs_normalizeText s)
  | otherTok => exact h
  | errTok => exact h

lemma parseLoop_chaptersOk : ∀ (toks : List XmlTok) (st st' : PState),
    chaptersOk st.chapters → parseLoop st toks = some st' →
    chaptersOk st'.chapters := by
  intro toks
  induction toks with
  | nil =>
    intro st st' h hp
    cases hp
    exact h
  | cons t ts ih =>
    intro st st' h hp
    cases t with
    | errTok => simp [parseLoop] at hp
    | startElem name attrs =>
      exact ih _ st' (chaptersOk_parseStep st _ h) hp
    | charData s =>
      exact ih _ st' (chaptersOk_parseStep st _ h) hp
    | otherTok =>
      exact ih _ st' (chaptersOk_parseStep st _ h) hp

/-- C6 amended: every chapter text produced by `ParseTitleChapters` has
its whitespace runs collapsed to single plain spaces (`noDoubleWs` and
`allWsSpaceB`) and no leading whitespace (`headWs ... = false`); every
non-empty chapter text ends with a space (`endsSp`), and by `noDoubleWs`
that trailing space is exactly one — the output is NOT trimmed on the
right as the original claim stated. -/
theorem chapter_text_normalized (toks : List XmlTok) (m : List (String × String))
    (hp : ParseTitleChapters toks = some m) :
    ∀ ch txt, (ch, txt) ∈ m →
      noDoubleWs false txt.data = true ∧ allWsSpaceB txt.data = true ∧
      headWs txt.data = false ∧
      (txt.data = [] ∨ endsSp txt.data = true) := by
  unfold ParseTitleChapters at hp
  cases hlp : parseLoop parseInit toks with
  | none => rw [hlp] at hp; cases hp
  | some st' =>
    rw [hlp] at hp
    have hinit : chaptersOk parseInit.chapters := by
      intro p hp'
      rcases List.mem_singleton.mp hp' with rfl
      exact Or.inl rfl
    have hok : chaptersOk st'.chapters := parseLoop_chaptersOk toks parseInit st' hinit hlp
    have hm : m = st'.chapters.map fun p => (p.1, String.mk (collapseGo false p.2)) := by
      cases hp
      rfl
    intro ch txt hmem
    rw [hm] at hmem
    rcases List.mem_map.mp hmem with ⟨q, hq, heq⟩
    have htxt : txt = String.mk (collapseGo false q.2) := (congrArg Prod.snd heq).symm
    have hdata : txt.data = collapseGo false q.2 := by rw [htxt]
    refine ⟨?_, ?_, ?_, ?_⟩
    · rw [hdata]; exact noDoubleWs_collapseGo q.2 false
    · rw [hdata]; exact allWsSpaceB_collapseGo q.2 false
    · rw [hdata]
      rcases hok q hq with hq2 | ⟨hq2a, _⟩
      · rw [hq2]; rfl
      · exact collapseGo_false_headWs q.2 hq2a
    · rw [hdata]
      rcases hok q hq with hq2 | ⟨_, hq2b⟩
      · rw [hq2]
        exact Or.inl rfl
      · exact collapse_endsSp q.2 false hq2b

/-- C6 counterexample: a chapter containing the character data `Hello`
comes out as `"Hello "` — with a trailing space, so the extracted text is
NOT free of trailing whitespace as the claim states. -/
theorem chapter_text_trailing_space_cex :
    ParseTitleChapters
        [ .startElem "DIV1" [("TYPE", "CHAPTER"), ("N", "I")],
          .charData "Hello".data ]
      = some [("UNKNOWN", ""), ("I", "Hello ")] ∧
    noTrailWsB "Hello ".data = false := by
  constructor
  · rfl
  · rfl

/-- Witness for C6 (amended): the extracted text `"Hello "` of chapter
`I` in the counterexample document indeed has collapsed whitespace, all
spaces plain, and no leading whitespace. -/
theorem chapter_text_normalized_witness :
    noDoubleWs false "Hello ".data = true ∧ allWsSpaceB "Hello ".data = true ∧
    headWs "Hello ".data = false ∧
    (("Hello " : String).data = [] ∨ endsSp "Hello ".data = true) :=
  chapter_text_normalized
    [ .startElem "DIV1" [("TYPE", "CHAPTER"), ("N", "I")],
      .charData "Hello".data ]
    [("UNKNOWN", ""), ("I", "Hello ")] rfl "I" "Hello " (by decide)

/-! ## C8: well-definedness of extraction and per-chapter contributions -/

lemma appendChapter_keys (m : List (String × List Char)) (k : String)
    (s : List Char) :
    (appendChapter m k s).map Prod.fst = m.map Prod.fst := by
  unfold appendChapter
  induction m with
  | nil => rfl
  | cons p rest ih =>
    simp only [List.map_cons]
    rw [ih]
    by_cases hp : p.1 = k
    · rw [if_pos hp]
    · rw [if_neg hp]

lemma ensureChapter_keys_nodup (m : List (String × List Char)) (k : String)
    (h : (m.map Prod.fst).Nodup) :
    ((ensureChapter m k).map Prod.fst).Nodup := by
  unfold ensureChapter
  by_cases hk : m.any (fun p => p.1 = k) = true
  · rwa [if_pos hk]
  · rw [if_neg hk]
    rw [List.map_append]
    have hkn : k ∉ m.map Prod.fst := by
      intro hmem
      rcases List.mem_map.mp hmem with ⟨p, hp, hpk⟩
      exact hk (List.any_eq_true.mpr ⟨p, hp, by simpa using hpk⟩)
    refine List.Nodup.append h (List.nodup_singleton k) ?_
    intro a ha hb
    rcases List.mem_singleton.mp hb with rfl
    exact hkn ha

lemma keysNodup_parseStep (st : PState) (t : XmlTok)
    (h : (st.chapters.map Prod.fst).Nodup) :
    ((parseStep st t).chapters.map Prod.fst).Nodup := by
  cases t with
  | startElem name attrs =>
    simp only [parseStep]
    by_cases h1 : isDivTag name = true
    · rw [if_pos h1]
      by_cases h2 : eqFold (attrGet attrs "TYPE") "CHAPTER" = true
      · rw [if_pos h2]
        by_cases h3 : attrGet attrs "N" ≠ ""
        · rw [if_pos h3]
          exact ensureChapter_keys_nodup st.chapters _ h
        · rw [if_neg h3]; exact h
      · rw [if_neg h2]; exact h
    · rw [if_neg h1]; exact h
  | charData s =>
    simp only [parseStep]
    by_cases hs : normalizeText s = []
    · rw [if_pos hs]; exact h
    · rw [if_neg hs]
      show ((appendChapter st.chapters st.current _).map Prod.fst).Nodup
      rw [appendChapter_keys]
      exact h
  | otherTok => exact h
  | errTok => exact h

lemma parseLoop_keysNodup : ∀ (toks : List XmlTok) (st st' : PState),
    (st.chapters.map Prod.fst).Nodup → parseLoop st toks = some st' →
    (st'.chapters.map Prod.fst).Nodup := by
  intro toks
  induction toks with
  | nil =>
    intro st st' h hp
    cases hp
    exact h
  | cons t ts ih =>
    intro st st' h hp
    cases t with
    | errTok => simp [parseLoop] at hp
    | startElem name attrs =>
      exact ih _ st' (keysNodup_parseStep st _ h) hp
    | charData s =>
      exact ih _ st' (keysNodup_parseStep st _ h) hp
    | otherTok =>
      exact ih _ st' (keysNodup_parseStep st _ h) hp

/-- The extracted chapter-text mapping carries each chapter label at most
once, so the text of each chapter is uniquely determined by it. -/
lemma ParseTitleChapters_keys_nodup (toks : List XmlTok)
    (m : List (String × String)) (hp : ParseTitleChapters toks = some m) :
    (m.map Prod.fst).Nodup := by
  unfold ParseTitleChapters at hp
  cases hlp : parseLoop parseInit toks with
  | none => rw [hlp] at hp; cases hp
  | some st' =>
    rw [hlp] at hp
    have hm : m = st'.chapters.map fun p => (p.1, String.mk (collapseGo false p.2)) := by
      cases hp
      rfl
    have hinit : ((parseInit.chapters).map Prod.fst).Nodup := by
      simp [parseInit]
    have hnd := parseLoop_keysNodup toks parseInit st' hinit hlp
    rw [hm, List.map_map]
    have hcomp : (Prod.fst ∘ fun p : String × List Char =>
        (p.1, String.mk (collapseGo false p.2))) = Prod.fst := by
      funext p
      rfl
    rw [hcomp]
    exact hnd

/-- One attribution iteration contributes exactly `refContribution` — a
value independent of the organization holding the reference. -/
lemma attributeStep_eq (hash : String → String)
    (ttext : List ((Nat × String) × List (String × String)))
    (td : List (Nat × String)) (acc : String × List String × List String)
    (ref : CFRRef) :
    attributeStep hash ttext td acc ref
      = if refContribution ttext td ref = "" then acc
        else (acc.1 ++ refContribution ttext td ref ++ " ",
              acc.2.1 ++ [hash (refContribution ttext td ref)],
              insertIfNew acc.2.2 (refKey ref.title ref.chapter)) := by
  by_cases h1 : ref.chapter = ""
  · simp [attributeStep, refContribution, h1]
  · by_cases h2 : dGet td ref.title = ""
    · simp [attributeStep, refContribution, h1, h2]
    · cases hm : mapLookup ttext (ref.title, dGet td ref.title) with
      | none => simp [attributeStep, refContribution, h1, h2, hm]
      | some chMap =>
        by_cases h3 : mGet chMap ref.chapter = ""
        · simp [attributeStep, refContribution, h1, h2, hm, h3]
        · simp [attributeStep, refContribution, h1, h2, hm, h3]

lemma mem_insertIfNew_self (l : List String) (s : String) :
    s ∈ insertIfNew l s := by
  unfold insertIfNew
  by_cases h : l.contains s = true
  · rw [if_pos h]
    exact List.mem_of_elem_eq_true h
  · rw [if_neg h]
    exact List.mem_append_right l (List.mem_singleton.mpr rfl)

lemma mem_insertIfNew_of_mem (l : List String) (s x : String) (h : x ∈ l) :
    x ∈ insertIfNew l s := by
  unfold insertIfNew
  by_cases hc : l.contains s = true
  · rwa [if_pos hc]
  · rw [if_neg hc]
    exact List.mem_append_left _ h

lemma attributeFold_mono_checksums (hash : String → String)
    (ttext : List ((Nat × String) × List (String × String)))
    (td : List (Nat × String)) :
    ∀ (refs : List CFRRef) (acc : String × List String × List String)
      (x : String), x ∈ acc.2.1 →
      x ∈ (refs.foldl (attributeStep hash ttext td) acc).2.1 := by
  intro refs
  induction refs with
  | nil => intro acc x hx; exact hx
  | cons q rest ih =>
    intro acc x hx
    rw [List.foldl_cons]
    refine ih _ x ?_
    rw [attributeStep_eq]
    by_cases hq : refContribution ttext td q = ""
    · rwa [if_pos hq]
    · rw [if_neg hq]
      exact List.mem_append_left _ hx

lemma attributeFold_mono_set (hash : String → String)
    (ttext : List ((Nat × String) × List (String × String)))
    (td : List (Nat × String)) :
    ∀ (refs : List CFRRef) (acc : String × List String × List String)
      (y : String), y ∈ acc.2.2 →
      y ∈ (refs.foldl (attributeStep hash ttext td) acc).2.2 := by
  intro refs
  induction refs with
  | nil => intro acc y hy; exact hy
  | cons q rest ih =>
    intro acc y hy
    rw [List.foldl_cons]
    refine ih _ y ?_
    rw [attributeStep_eq]
    by_cases hq : refContribution ttext td q = ""
    · rwa [if_pos hq]
    · rw [if_neg hq]
      exact mem_insertIfNew_of_mem _ _ y hy

lemma attributeFold_mem (hash : String → String)
    (ttext : List ((Nat × String) × List (String × String)))
    (td : List (Nat × String)) :
    ∀ (refs : List CFRRef) (acc : String × List String × List String)
      (r : CFRRef), r ∈ refs → refContribution ttext td r ≠ "" →
      hash (refContribution ttext td r)
          ∈ (refs.foldl (attributeStep hash ttext td) acc).2.1 ∧
      refKey r.title r.chapter
          ∈ (refs.foldl (attributeStep hash ttext td) acc).2.2 := by
  intro refs
  induction refs with
  | nil => intro acc r hr; cases hr
  | cons q rest ih =>
    intro acc r hr hne
    rw [List.foldl_cons]
    rcases List.mem_cons.mp hr with rfl | hr
    · have hstep := attributeStep_eq hash ttext td acc r
      rw [if_neg hne] at hstep
      constructor
      · refine attributeFold_mono_checksums hash ttext td rest _ _ ?_
        rw [hstep]
        exact List.mem_append_right _ (List.mem_singleton.mpr rfl)
      · refine attributeFold_mono_set hash ttext td rest _ _ ?_
        rw [hstep]
        exact mem_insertIfNew_self _ _
    · exact ih _ r hr hne

/-- C8: chapter extraction yields a well-defined mapping — no chapter
label occurs twice, so each chapter's text is uniquely determined (and a
re-extraction of the same bytes, being the same pure function, yields
this same mapping) — and the contribution a `(division, chapter)`
reference feeds into an organization's metrics depends only on the
cycle's chapter-text cache, the title dates and the reference itself:
every organization's attribution step pushes exactly `refContribution`
and its checksum, so two organizations sharing the reference `r`,
whatever their other references, both attribute the key of `r` and both
carry the checksum of the SAME chapter text among their per-chapter
checksums — numerically identical word-count
(`WordCount (refContribution ttext td r)`) and checksum contributions
from that chapter. -/
theorem extraction_deterministic (hash : String → String)
    (ttext : List ((Nat × String) × List (String × String)))
    (td : List (Nat × String)) (a1 a2 : AgencyRec) (r : CFRRef)
    (toks : List XmlTok) (m : List (String × String))
    (hp : ParseTitleChapters toks = some m)
    (h1 : r ∈ a1.raw.cfrReferences) (h2 : r ∈ a2.raw.cfrReferences)
    (hne : refContribution ttext td r ≠ "") :
    (m.map Prod.fst).Nodup ∧
    (∀ acc, attributeStep hash ttext td acc r
      = (acc.1 ++ refContribution ttext td r ++ " ",
         acc.2.1 ++ [hash (refContribution ttext td r)],
         insertIfNew acc.2.2 (refKey r.title r.chapter))) ∧
    (hash (refContribution ttext td r) ∈ (attributeRefs hash ttext td a1).2.1 ∧
     hash (refContribution ttext td r) ∈ (attributeRefs hash ttext td a2).2.1) ∧
    (refKey r.title r.chapter ∈ (attributeRefs hash ttext td a1).2.2 ∧
     refKey r.title r.chapter ∈ (attributeRefs hash ttext td a2).2.2) := by
  have hm1 := attributeFold_mem hash ttext td a1.raw.cfrReferences ("", [], []) r h1 hne
  have hm2 := attributeFold_mem hash ttext td a2.raw.cfrReferences ("", [], []) r h2 hne
  refine ⟨ParseTitleChapters_keys_nodup toks m hp, ?_, ⟨hm1.1, hm2.1⟩, ⟨hm1.2, hm2.2⟩⟩
  intro acc
  rw [attributeStep_eq, if_neg hne]

/-- Witness for C8: two agencies share the reference `(title 1, chapter
I)` but differ in their other references; both carry the checksum of that
chapter's text `"Hello "` among their per-chapter checksums. -/
theorem extraction_deterministic_witness :
    id (refContribution [((1, "2025-01-02"), [("I", "Hello ")])]
        [(1, "2025-01-02")] ⟨1, "I", ""⟩)
      ∈ (attributeRefs id [((1, "2025-01-02"), [("I", "Hello ")])]
          [(1, "2025-01-02")]
          ⟨"one", "One", ⟨"One", "one", [⟨1, "I", ""⟩]⟩⟩).2.1 ∧
    id (refContribution [((1, "2025-01-02"), [("I", "Hello ")])]
        [(1, "2025-01-02")] ⟨1, "I", ""⟩)
      ∈ (attributeRefs id [((1, "2025-01-02"), [("I", "Hello ")])]
          [(1, "2025-01-02")]
          ⟨"two", "Two", ⟨"Two", "two", [⟨2, "III", ""⟩, ⟨1, "I", ""⟩]⟩⟩).2.1 :=
  (extraction_deterministic id [((1, "2025-01-02"), [("I", "Hello ")])]
    [(1, "2025-01-02")]
    ⟨"one", "One", ⟨"One", "one", [⟨1, "I", ""⟩]⟩⟩
    ⟨"two", "Two", ⟨"Two", "two", [⟨2, "III", ""⟩, ⟨1, "I", ""⟩]⟩⟩
    ⟨1, "I", ""⟩
    [ .startElem "DIV1" [("TYPE", "CHAPTER"), ("N", "I")],
      .charData "Hello".data ]
    [("UNKNOWN", ""), ("I", "Hello ")] rfl
    (by decide) (by decide) (by decide)).2.2.1

/-! ## C1/C5: which rows a computation cycle writes -/

lemma metricRowsFor_append (hash : String → String) (st : StoreView)
    (ttext : List ((Nat × String) × List (String × String)))
    (td : List (Nat × String)) :
    ∀ l1 l2 : List AgencyRec,
      metricRowsFor hash st ttext td (l1 ++ l2)
        = metricRowsFor hash st ttext td l1 ++ metricRowsFor hash st ttext td l2 := by
  intro l1
  induction l1 with
  | nil => intro l2; rfl
  | cons a rest ih =>
    intro l2
    simp only [List.cons_append, metricRowsFor, List.append_eq, ih, List.append_assoc]

/-- C1: an organization whose concatenated attributed text is non-empty
gets exactly the five metrics `word_count`, `words_per_chapter`,
`checksum`, `readability`, `churn` written, all carrying its slug and one
single issue date, and they appear in the cycle's output between the rows
of the agencies before and after it. -/
theorem five_metrics_single_date (hash : String → String) (st : StoreView)
    (titles : List Title) (td : List (Nat × String)) (a : AgencyRec)
    (pre post : List AgencyRec)
    (h : (attributeRefs hash (buildTitleChapterText st.readSnapshotXML titles td) td a).1 ≠ "") :
    ((agencyRows hash st (buildTitleChapterText st.readSnapshotXML titles td) td a).map
        (fun r => r.metric))
      = ["word_count", "words_per_chapter", "checksum", "readability", "churn"] ∧
    (∀ r ∈ agencyRows hash st (buildTitleChapterText st.readSnapshotXML titles td) td a,
      r.slug = a.slug ∧ r.date = newestReferencedDateFromMap a td) ∧
    computeWithTitleDates hash st titles td (pre ++ a :: post)
      = metricRowsFor hash st (buildTitleChapterText st.readSnapshotXML titles td) td pre
        ++ agencyRows hash st (buildTitleChapterText st.readSnapshotXML titles td) td a
        ++ metricRowsFor hash st (buildTitleChapterText st.readSnapshotXML titles td) td post := by
  refine ⟨?_, ?_, ?_⟩
  · unfold agencyRows
    rw [if_neg h]
    rfl
  · intro r hr
    unfold agencyRows at hr
    rw [if_neg h] at hr
    simp only [List.mem_cons, List.mem_singleton] at hr
    rcases hr with rfl | rfl | rfl | rfl | rfl | hr
    · exact ⟨rfl, rfl⟩
    · exact ⟨rfl, rfl⟩
    · exact ⟨rfl, rfl⟩
    · exact ⟨rfl, rfl⟩
    · exact ⟨rfl, rfl⟩
    · cases hr
  · unfold computeWithTitleDates
    rw [metricRowsFor_append]
    simp only [metricRowsFor, List.append_assoc]

/-- Witness for C1: a concrete cycle — one title, one snapshot, one
agency referencing chapter `I` — writes the five metric rows. -/
theorem five_metrics_single_date_witness :
    ((agencyRows id
        ⟨fun t d => if t = 1 && d = "2025-01-02"
            then some [.startElem "DIV1" [("TYPE", "CHAPTER"), ("N", "I")],
                       .charData "Hello".data]
            else none,
          fun _ _ => .noRows⟩
        (buildTitleChapterText
          (fun t d => if t = 1 && d = "2025-01-02"
            then some [.startElem "DIV1" [("TYPE", "CHAPTER"), ("N", "I")],
                       .charData "Hello".data]
            else none)
          [⟨1, "Title 1", "2025-01-02", false⟩] [(1, "2025-01-02")])
        [(1, "2025-01-02")]
        ⟨"one", "One", ⟨"One", "one", [⟨1, "I", ""⟩]⟩⟩).map (fun r => r.metric))
      = ["word_count", "words_per_chapter", "checksum", "readability", "churn"] :=
  (five_metrics_single_date id
    ⟨fun t d => if t = 1 && d = "2025-01-02"
        then some [.startElem "DIV1" [("TYPE", "CHAPTER"), ("N", "I")],
                   .charData "Hello".data]
        else none,
      fun _ _ => .noRows⟩
    [⟨1, "Title 1", "2025-01-02", false⟩] [(1, "2025-01-02")]
    ⟨"one", "One", ⟨"One", "one", [⟨1, "I", ""⟩]⟩⟩ [] []
    (by decide)).1

/-- C5: an organization whose concatenated attributed text is empty —
for instance because no snapshot exists for any referenced division —
contributes no metric rows to the cycle at all, and removing it from the
agency list leaves the cycle's output unchanged (other organizations are
still computed). -/
theorem empty_text_skipped (hash : String → String) (st : StoreView)
    (titles : List Title) (td : List (Nat × String)) (a : AgencyRec)
    (pre post : List AgencyRec)
    (h : (attributeRefs hash (buildTitleChapterText st.readSnapshotXML titles td) td a).1 = "") :
    agencyRows hash st (buildTitleChapterText st.readSnapshotXML titles td) td a = [] ∧
    computeWithTitleDates hash st titles td (pre ++ a :: post)
      = computeWithTitleDates hash st titles td (pre ++ post) := by
  have hrows : agencyRows hash st (buildTitleChapterText st.readSnapshotXML titles td) td a
      = [] := by
    unfold agencyRows
    rw [if_pos h]
  refine ⟨hrows, ?_⟩
  unfold computeWithTitleDates
  rw [metricRowsFor_append, metricRowsFor_append]
  simp only [metricRowsFor, hrows, List.nil_append]

/-- Witness for C5 (Scenario B): an agency referencing `(division 2,
chapter III)` with no snapshot stored for division 2 produces no rows,
while a sibling agency with attributable text still gets its rows. -/
theorem empty_text_skipped_witness :
    agencyRows id
        ⟨fun t d => if t = 1 && d = "2025-01-02"
            then some [.startElem "DIV1" [("TYPE", "CHAPTER"), ("N", "I")],
                       .charData "Hello".data]
            else none,
          fun _ _ => .noRows⟩
        (buildTitleChapterText
          (fun t d => if t = 1 && d = "2025-01-02"
            then some [.startElem "DIV1" [("TYPE", "CHAPTER"), ("N", "I")],
                       .charData "Hello".data]
            else none)
          [⟨1, "Title 1", "2025-01-02", false⟩, ⟨2, "Title 2", "2025-01-02", false⟩]
          [(1, "2025-01-02"), (2, "2025-01-02")])
        [(1, "2025-01-02"), (2, "2025-01-02")]
        ⟨"orphan", "Orphan", ⟨"Orphan", "orphan", [⟨2, "III", ""⟩]⟩⟩ = [] :=
  (empty_text_skipped id
    ⟨fun t d => if t = 1 && d = "2025-01-02"
        then some [.startElem "DIV1" [("TYPE", "CHAPTER"), ("N", "I")],
                   .charData "Hello".data]
        else none,
      fun _ _ => .noRows⟩
    [⟨1, "Title 1", "2025-01-02", false⟩, ⟨2, "Title 2", "2025-01-02", false⟩]
    [(1, "2025-01-02"), (2, "2025-01-02")]
    ⟨"orphan", "Orphan", ⟨"Orphan", "orphan", [⟨2, "III", ""⟩]⟩⟩ [] []
    (by decide)).1

/-! ## C7: the issue date of an agency's metric rows -/

lemma charListLt_irrefl : ∀ l : List Char, charListLt l l = false := by
  intro l
  induction l with
  | nil => rfl
  | cons c cs ih =>
    simp only [charListLt]
    rw [if_neg (by omega), if_neg (by omega)]
    exact ih

lemma charListLt_trans : ∀ a b c : List Char,
    charListLt a b = true → charListLt b c = true → charListLt a c = true := by
  intro a
  induction a with
  | nil =>
    intro b c hab hbc
    cases b with
    | nil => cases hab
    | cons y ys =>
      cases c with
      | nil => cases hbc
      | cons z zs => rfl
  | cons x xs ih =>
    intro b c hab hbc
    cases b with
    | nil => cases hab
    | cons y ys =>
      cases c with
      | nil => cases hbc
      | cons z zs =>
        simp only [charListLt] at hab hbc ⊢
        by_cases hxy : x.toNat < y.toNat
        · by_cases hyz : y.toNat < z.toNat
          · rw [if_pos (by omega)]
          · rw [if_neg hyz] at hbc
            by_cases hzy : z.toNat < y.toNat
            · rw [if_pos hzy] at hbc; cases hbc
            · rw [if_pos (by omega)]
        · rw [if_neg hxy] at hab
          by_cases hyx : y.toNat < x.toNat
          · rw [if_pos hyx] at hab; cases hab
          · rw [if_neg hyx] at hab
            by_cases hyz : y.toNat < z.toNat
            · rw [if_pos (by omega)]
            · rw [if_neg hyz] at hbc
              by_cases hzy : z.toNat < y.toNat
              · rw [if_pos hzy] at hbc; cases hbc
              · rw [if_neg hzy] at hbc
                rw [if_neg (by omega), if_neg (by omega)]
                exact ih ys zs hab hbc

lemma charListLt_conn : ∀ a b : List Char,
    charListLt a b = false → charListLt b a = true ∨ a = b := by
  intro a
  induction a with
  | nil =>
    intro b h
    cases b with
    | nil => exact Or.inr rfl
    | cons y ys => cases h
  | cons x xs ih =>
    intro b h
    cases b with
    | nil => exact Or.inl rfl
    | cons y ys =>
      simp only [charListLt] at h ⊢
      by_cases hxy : x.toNat < y.toNat
      · rw [if_pos hxy] at h; cases h
      · rw [if_neg hxy] at h
        by_cases hyx : y.toNat < x.toNat
        · exact Or.inl (by rw [if_pos hyx])
        · rw [if_neg hyx] at h
          have hx : x = y := Char.eq_of_val_eq (by
            have : x.toNat = y.toNat := by omega
            exact UInt32.ext this)
          rcases ih ys h with h' | h'
          · exact Or.inl (by rw [if_neg (by omega), if_neg (by omega)]; exact h')
          · exact Or.inr (by rw [hx, h'])

lemma strLt_irrefl (s : String) : strLt s s = false := charListLt_irrefl s.data

lemma strLt_trans (a b c : String) (hab : strLt a b = true) (hbc : strLt b c = true) :
    strLt a c = true := charListLt_trans a.data b.data c.data hab hbc

lemma strLt_empty_right (s : String) : strLt s "" = false := by
  unfold strLt
  cases hs : s.data with
  | nil => rfl
  | cons c cs => rfl

/-- Connectedness of the byte-wise comparison at the level of the
underlying character data. -/
lemma strLt_conn (a b : String) (h : strLt a b = false) :
    strLt b a = true ∨ a.data = b.data := by
  rcases charListLt_conn a.data b.data h with h' | h'
  · exact Or.inl h'
  · exact Or.inr h'

/-- Fold invariant for `newestReferencedDateFromMap`: the running maximum
never decreases, bounds every date seen, and is either the start value or
one of the dates seen. -/
lemma newest_fold_spec (td : List (Nat × String)) :
    ∀ (refs : List CFRRef) (init : String),
      strLt (refs.foldl
          (fun best r =>
            let d := dGet td r.title
            if d = "" then best else if strLt best d then d else best) init)
        init = false ∧
      (∀ r ∈ refs,
        strLt (refs.foldl
            (fun best r =>
              let d := dGet td r.title
              if d = "" then best else if strLt best d then d else best) init)
          (dGet td r.title) = false) ∧
      ((refs.foldl
          (fun best r =>
            let d := dGet td r.title
            if d = "" then best else if strLt best d then d else best) init) = init ∨
        ∃ r ∈ refs, dGet td r.title
          = refs.foldl
              (fun best r =>
                let d := dGet td r.title
                if d = "" then best else if strLt best d then d else best) init) := by
  intro refs
  induction refs with
  | nil =>
    intro init
    exact ⟨strLt_irrefl init, fun r hr => absurd hr (List.not_mem_nil r), Or.inl rfl⟩
  | cons r rest ih =>
    intro init
    simp only [List.foldl_cons]
    set d0 := dGet td r.title with hd0
    set init' := (fun best r =>
        let d := dGet td r.title
        if d = "" then best else if strLt best d then d else best) init r with hinit'
    obtain ⟨ih1, ih2, ih3⟩ := ih init'
    set res := rest.foldl
        (fun best r =>
          let d := dGet td r.title
          if d = "" then best else if strLt best d then d else best) init' with hres
    have hstep : (d0 = "" ∧ init' = init) ∨
        (d0 ≠ "" ∧ strLt init d0 = true ∧ init' = d0) ∨
        (d0 ≠ "" ∧ strLt init d0 = false ∧ init' = init) := by
      rw [hinit']
      by_cases hd : d0 = ""
      · refine Or.inl ⟨hd, ?_⟩
        simp only [← hd0, hd, if_pos]
      · by_cases hlt : strLt init d0 = true
        · refine Or.inr (Or.inl ⟨hd, hlt, ?_⟩)
          simp only [← hd0, if_neg hd, if_pos hlt]
        · refine Or.inr (Or.inr ⟨hd, by rwa [Bool.not_eq_true] at hlt, ?_⟩)
          simp only [← hd0, if_neg hd, if_neg hlt]
    have hge : strLt res init = false := by
      rcases hstep with ⟨_, h⟩ | ⟨_, hlt, h⟩ | ⟨_, _, h⟩
      · rwa [h] at ih1
      · rw [h] at ih1
        by_cases hcon : strLt res init = true
        · have := strLt_trans res init d0 hcon hlt
          rw [ih1] at this
          cases this
        · rwa [Bool.not_eq_true] at hcon
      · rwa [h] at ih1
    refine ⟨hge, ?_, ?_⟩
    · intro q hq
      rcases List.mem_cons.mp hq with rfl | hq
      · rcases hstep with ⟨hd, _⟩ | ⟨_, _, h⟩ | ⟨_, hnlt, _⟩
        · rw [← hd0, hd]
          exact strLt_empty_right res
        · rw [← hd0, ← h]
          exact ih1
        · rw [← hd0]
          by_cases hcon : strLt res d0 = true
          · exfalso
            rcases strLt_conn init d0 hnlt with h' | h'
            · have := strLt_trans res d0 init hcon h'
              rw [hge] at this
              cases this
            · have : strLt res init = true := by
                unfold strLt at hcon ⊢
                rwa [h']
              rw [hge] at this
              cases this
          · rwa [Bool.not_eq_true] at hcon
      · exact ih2 q hq
    · rcases ih3 with h | ⟨q, hq, hqe⟩
      · rcases hstep with ⟨_, h'⟩ | ⟨_, _, h'⟩ | ⟨_, _, h'⟩
        · exact Or.inl (by rw [h, h'])
        · exact Or.inr ⟨r, List.mem_cons_self r rest, by rw [← hd0, h, h']⟩
        · exact Or.inl (by rw [h, h'])
      · exact Or.inr ⟨q, List.mem_cons_of_mem r hq, hqe⟩

/-- Following the spec's words for C7 (to be compared with the source's
`newestReferencedDateFromMap`): the maximum as-of date among the
references that were actually attributed — references with a non-empty
chapter code whose chapter text was found non-empty in the cycle's
chapter-text cache. -/
def specMaxAttributedDate (ttext : List ((Nat × String) × List (String × String)))
    (titleDates : List (Nat × String)) (a : AgencyRec) : String :=
  a.raw.cfrReferences.foldl
    (fun best r =>
      if r.chapter = "" then best
      else
        let d := dGet titleDates r.title
        if d = "" then best
        else
          match mapLookup ttext (r.title, d) with
          | none => best
          | some chMap =>
            if mGet chMap r.chapter = "" then best
            else if strLt best d then d else best)
    ""

/-- C7 counterexample: an agency attributes text only through
`(title 1, chapter I)` at date `2025-01-01`, but also carries a
chapter-less reference to title 2 dated `2025-02-02`; the code stamps the
metric rows `2025-02-02` — the maximum over ALL references — not the
claim's maximum over attributed references, `2025-01-01`. -/
theorem issue_date_cex :
    specMaxAttributedDate [((1, "2025-01-01"), [("I", "x ")])]
        [(1, "2025-01-01"), (2, "2025-02-02")]
        ⟨"a", "A", ⟨"A", "a", [⟨1, "I", ""⟩, ⟨2, "", ""⟩]⟩⟩ = "2025-01-01" ∧
    (agencyRows id ⟨fun _ _ => none, fun _ _ => .noRows⟩
        [((1, "2025-01-01"), [("I", "x ")])]
        [(1, "2025-01-01"), (2, "2025-02-02")]
        ⟨"a", "A", ⟨"A", "a", [⟨1, "I", ""⟩, ⟨2, "", ""⟩]⟩⟩).map (fun r => r.date)
      = ["2025-02-02", "2025-02-02", "2025-02-02", "2025-02-02", "2025-02-02"] ∧
    ("2025-02-02" == "2025-01-01") = false := by
  refine ⟨by decide, ?_, by decide⟩
  rfl

/-- C7 amended: the issue date on every metric row of an agency is the
lexicographically greatest known title date over ALL of the agency's
references — chapter-less and unattributed references included, not only
the attributed ones: it is an upper bound of every referenced title's
date and is itself one of those dates (or empty when none is known). -/
theorem issue_date_from_all_references (hash : String → String) (st : StoreView)
    (ttext : List ((Nat × String) × List (String × String)))
    (td : List (Nat × String)) (a : AgencyRec) :
    (∀ r ∈ agencyRows hash st ttext td a,
      r.date = newestReferencedDateFromMap a td) ∧
    (∀ r ∈ a.raw.cfrReferences,
      strLt (newestReferencedDateFromMap a td) (dGet td r.title) = false) ∧
    (newestReferencedDateFromMap a td = "" ∨
      ∃ r ∈ a.raw.cfrReferences,
        dGet td r.title = newestReferencedDateFromMap a td) := by
  obtain ⟨h1, h2, h3⟩ := newest_fold_spec td a.raw.cfrReferences ""
  refine ⟨?_, ?_, ?_⟩
  · intro r hr
    unfold agencyRows at hr
    by_cases h : (attributeRefs hash ttext td a).1 = ""
    · rw [if_pos h] at hr
      cases hr
    · rw [if_neg h] at hr
      simp only [List.mem_cons, List.mem_singleton] at hr
      rcases hr with rfl | rfl | rfl | rfl | rfl | hr
      · rfl
      · rfl
      · rfl
      · rfl
      · rfl
      · cases hr
  · intro r hr
    unfold newestReferencedDateFromMap
    exact h2 r hr
  · unfold newestReferencedDateFromMap
    exact h3

/-- Witness for C7 (amended): with one reference to title 1 dated
`2025-01-02`, the issue date is not less than that reference's date. -/
theorem issue_date_from_all_references_witness :
    strLt (newestReferencedDateFromMap
        ⟨"a", "A", ⟨"A", "a", [⟨1, "I", ""⟩]⟩⟩ [(1, "2025-01-02")])
      (dGet [(1, "2025-01-02")] 1) = false :=
  (issue_date_from_all_references id ⟨fun _ _ => none, fun _ _ => .noRows⟩ []
      [(1, "2025-01-02")] ⟨"a", "A", ⟨"A", "a", [⟨1, "I", ""⟩]⟩⟩).2.1
    ⟨1, "I", ""⟩ (by decide)

/-! ## C2: the churn metric -/

/-- A chapter is comparable when both its current and previous text are
non-empty. -/
def comparablePairB (curCh prevCh : List (String × String)) (ch : String) : Bool :=
  decide (mGet curCh ch ≠ "" ∧ mGet prevCh ch ≠ "")

/-- A comparable chapter counts as changed when its checksums differ. -/
def changedPairB (hash : String → String)
    (curCh prevCh : List (String × String)) (ch : String) : Bool :=
  decide (mGet curCh ch ≠ "" ∧ mGet prevCh ch ≠ "" ∧
    hash (mGet curCh ch) ≠ hash (mGet prevCh ch))

/-- `compared_count`: over all successfully loaded titles, the number of
de-duplicated referenced chapters whose current and previous text are both
non-empty. -/
def comparedCount (st : StoreView) (td : List (Nat × String))
    (groups : List (Nat × List String)) : Nat :=
  (groups.map (fun g =>
    match loadChurnPair st td g.1 with
    | none => 0
    | some (curCh, prevCh) => (uniqueStrings g.2).countP (comparablePairB curCh prevCh))).sum

/-- `changed_count`: the comparable chapters whose checksum changed. -/
def changedCount (hash : String → String) (st : StoreView)
    (td : List (Nat × String)) (groups : List (Nat × List String)) : Nat :=
  (groups.map (fun g =>
    match loadChurnPair st td g.1 with
    | none => 0
    | some (curCh, prevCh) => (uniqueStrings g.2).countP (changedPairB hash curCh prevCh))).sum

lemma chapterFold_eq (hash : String → String) (curCh prevCh : List (String × String)) :
    ∀ (l : List String) (acc : Nat × Nat),
      l.foldl (chapterStep hash curCh prevCh) acc
        = (acc.1 + l.countP (changedPairB hash curCh prevCh),
           acc.2 + l.countP (comparablePairB curCh prevCh)) := by
  intro l
  induction l with
  | nil => intro acc; simp
  | cons ch rest ih =>
    intro acc
    rw [List.foldl_cons, ih, List.countP_cons, List.countP_cons]
    by_cases hct : mGet curCh ch = ""
    · have h1 : comparablePairB curCh prevCh ch = false := by
        simp [comparablePairB, hct]
      have h2 : changedPairB hash curCh prevCh ch = false := by
        simp [changedPairB, hct]
      have hstep : chapterStep hash curCh prevCh acc ch = acc := by
        unfold chapterStep
        rw [if_pos (Or.inl hct)]
      rw [hstep, h1, h2]
      simp
    · by_cases hpt : mGet prevCh ch = ""
      · have h1 : comparablePairB curCh prevCh ch = false := by
          simp [comparablePairB, hpt]
        have h2 : changedPairB hash curCh prevCh ch = false := by
          simp [changedPairB, hpt]
        have hstep : chapterStep hash curCh prevCh acc ch = acc := by
          unfold chapterStep
          rw [if_pos (Or.inr hpt)]
        rw [hstep, h1, h2]
        simp
      · have h1 : comparablePairB curCh prevCh ch = true := by
          simp [comparablePairB, hct, hpt]
        by_cases hh : hash (mGet curCh ch) = hash (mGet prevCh ch)
        · have h2 : changedPairB hash curCh prevCh ch = false := by
            simp [changedPairB, hh]
          have hstep : chapterStep hash curCh prevCh acc ch = (acc.1, acc.2 + 1) := by
            unfold chapterStep
            rw [if_neg (by tauto), if_neg (by simpa using hh)]
            simp
          rw [hstep, h1, h2]
          simp only [Prod.mk.injEq, Bool.false_eq_true, if_false, if_true]
          constructor <;> omega
        · have h2 : changedPairB hash curCh prevCh ch = true := by
            simp [changedPairB, hct, hpt, hh]
          have hstep : chapterStep hash curCh prevCh acc ch = (acc.1 + 1, acc.2 + 1) := by
            unfold chapterStep
            rw [if_neg (by tauto), if_pos (by simpa using hh)]
          rw [hstep, h1, h2]
          simp only [Prod.mk.injEq, Bool.false_eq_true, if_false, if_true]
          constructor <;> omega

lemma churnFold_eq (hash : String → String) (st : StoreView)
    (td : List (Nat × String)) :
    ∀ (groups : List (Nat × List String)) (acc : Nat × Nat),
      groups.foldl (churnTitleStep hash st td) acc
        = (acc.1 + changedCount hash st td groups,
           acc.2 + comparedCount st td groups) := by
  intro groups
  induction groups with
  | nil => intro acc; simp [changedCount, comparedCount]
  | cons g rest ih =>
    intro acc
    rw [List.foldl_cons, ih]
    unfold changedCount comparedCount
    rw [List.map_cons, List.map_cons, List.sum_cons, List.sum_cons]
    cases hload : loadChurnPair st td g.1 with
    | none =>
      have hstep : churnTitleStep hash st td acc g = acc := by
        unfold churnTitleStep
        rw [hload]
      rw [hstep]
      simp only [Prod.mk.injEq]
      constructor <;> omega
    | some pair =>
      obtain ⟨curCh, prevCh⟩ := pair
      have hstep : churnTitleStep hash st td acc g
          = (acc.1 + (uniqueStrings g.2).countP (changedPairB hash curCh prevCh),
             acc.2 + (uniqueStrings g.2).countP (comparablePairB curCh prevCh)) := by
        unfold churnTitleStep
        rw [hload]
        exact chapterFold_eq hash curCh prevCh (uniqueStrings g.2) acc
      rw [hstep]
      simp only [Prod.mk.injEq]
      constructor <;> omega

lemma churnCounts_eq_counts (hash : String → String) (st : StoreView)
    (td : List (Nat × String)) (groups : List (Nat × List String)) :
    churnCounts hash st td groups
      = (changedCount hash st td groups, comparedCount st td groups) := by
  unfold churnCounts
  rw [churnFold_eq]
  simp

lemma changedCount_le_comparedCount (hash : String → String) (st : StoreView)
    (td : List (Nat × String)) :
    ∀ groups : List (Nat × List String),
      changedCount hash st td groups ≤ comparedCount st td groups := by
  intro groups
  induction groups with
  | nil => exact le_refl 0
  | cons g rest ih =>
    unfold changedCount comparedCount
    rw [List.map_cons, List.map_cons, List.sum_cons, List.sum_cons]
    have hhead : (match loadChurnPair st td g.1 with
        | none => 0
        | some (curCh, prevCh) => (uniqueStrings g.2).countP (changedPairB hash curCh prevCh))
        ≤ (match loadChurnPair st td g.1 with
        | none => 0
        | some (curCh, prevCh) => (uniqueStrings g.2).countP (comparablePairB curCh prevCh)) := by
      cases hload : loadChurnPair st td g.1 with
      | none => exact le_refl 0
      | some pair =>
        obtain ⟨curCh, prevCh⟩ := pair
        refine List.countP_mono_left ?_
        intro ch _ hch
        simp [changedPairB] at hch
        simp [comparablePairB]
        exact ⟨hch.1, hch.2.1⟩
    exact Nat.add_le_add hhead ih

/-- C2: churn always lies in `[0, 1]`; it is `0` exactly when no
`(division, chapter)` pair is comparable (`compared_count = 0`, which
covers both a missing prior snapshot for every referenced division and
empty current/previous chapter text), and otherwise equals
`changed_count / compared_count` over the pairs where both current and
previous chapter text are non-empty. -/
theorem churn_bounds (hash : String → String) (st : StoreView) (a : AgencyRec)
    (td : List (Nat × String)) :
    (0 ≤ computeChurnBestEffort hash st a td ∧
      computeChurnBestEffort hash st a td ≤ 1) ∧
    (comparedCount st td (groupRefs (churnRefs a)) = 0 →
      computeChurnBestEffort hash st a td = 0) ∧
    (comparedCount st td (groupRefs (churnRefs a)) ≠ 0 →
      computeChurnBestEffort hash st a td
        = (changedCount hash st td (groupRefs (churnRefs a)) : ℚ)
          / (comparedCount st td (groupRefs (churnRefs a)) : ℚ)) := by
  set G := groupRefs (churnRefs a) with hG
  have hcc : churnCounts hash st td G = (changedCount hash st td G, comparedCount st td G) :=
    churnCounts_eq_counts hash st td G
  have hle : changedCount hash st td G ≤ comparedCount st td G :=
    changedCount_le_comparedCount hash st td G
  have hval : computeChurnBestEffort hash st a td
      = if churnRefs a = [] then (0 : ℚ)
        else if comparedCount st td G = 0 then 0
        else (changedCount hash st td G : ℚ) / (comparedCount st td G : ℚ) := by
    simp only [computeChurnBestEffort, ← hG, hcc]
  rw [hval]
  by_cases hr : churnRefs a = []
  · rw [if_pos hr]
    have hcmp0 : comparedCount st td G = 0 := by
      rw [hG, hr]
      rfl
    exact ⟨⟨le_refl 0, by norm_num⟩, fun _ => rfl, fun hne => absurd hcmp0 hne⟩
  · rw [if_neg hr]
    by_cases h0 : comparedCount st td G = 0
    · rw [if_pos h0]
      exact ⟨⟨le_refl 0, by norm_num⟩, fun _ => rfl, fun hne => absurd h0 hne⟩
    · rw [if_neg h0]
      have hpos : (0 : ℚ) < (comparedCount st td G : ℚ) := by
        exact_mod_cast Nat.pos_of_ne_zero h0
      refine ⟨⟨?_, ?_⟩, fun hz => absurd hz h0, fun _ => rfl⟩
      · exact div_nonneg (by positivity) hpos.le
      · rw [div_le_one hpos]
        exact_mod_cast hle

/-- Witness for C2: with no prior snapshot for the referenced division,
no pair is comparable and churn evaluates to `0`. -/
theorem churn_bounds_witness :
    computeChurnBestEffort id ⟨fun _ _ => none, fun _ _ => .noRows⟩
        ⟨"a", "A", ⟨"A", "a", [⟨1, "I", ""⟩]⟩⟩ [(1, "2025-01-02")] = 0 :=
  (churn_bounds id ⟨fun _ _ => none, fun _ _ => .noRows⟩
      ⟨"a", "A", ⟨"A", "a", [⟨1, "I", ""⟩]⟩⟩ [(1, "2025-01-02")]).2.1 (by decide)

end ECFR
